import Mathlib

/-!
Verification of the histogram-reduction core of the `fluka_neutronstudy`
Geant4 comparison app.

The embedding below follows `docker/geant4_app/src/RunAction.cc` and
`docker/geant4_app/src/SteppingAction.cc`.  `G4double` is modelled as `ℝ`,
`G4int` as `ℤ`, `std::vector<G4double>` as `List ℝ`.  The C++
`static_cast<G4int>` conversion from `double` truncates toward zero and is
modelled by `truncToInt`.  File-system effects of `WriteResults` are modelled
by passing, for each of the two output streams, a boolean saying whether the
`std::ofstream` opened successfully; the produced artifact contents and the
(empty) diagnostic output are returned explicitly.
-/

namespace NeutronStudy

noncomputable section

/-- Geant4 internal units (`G4SystemOfUnits.hh`): lengths in mm, so `cm = 10`. -/
def cm : ℝ := 10

/-- Geant4 internal units: energies in MeV, so `GeV = 1000`. -/
def GeV : ℝ := 1000

/-- C++ `static_cast<G4int>` applied to a `double`: truncation toward zero. -/
def truncToInt (x : ℝ) : ℤ := if 0 ≤ x then ⌊x⌋ else ⌈x⌉

/-- State of one `RunAction` instance (`RunAction.hh`).  The mutex only
guards the increments and has no observable state of its own, so it is not
modelled. -/
structure RunAction where
  fOutputDir : String
  fZBins : ℤ
  fZMin : ℝ
  fZMax : ℝ
  fEdepHist : List ℝ
  fEnergyBins : ℤ
  fEMin : ℝ
  fEMax : ℝ
  fNeutronSpectrum : List ℝ

/-- The constructor `RunAction::RunAction(outputDir)`: default configuration
100 z-bins over `[0, 2*cm)`, 100 energy bins over `[1e-11*GeV, 10*GeV)`;
the histogram vectors start empty. -/
def RunAction.construct (outputDir : String) : RunAction :=
  { fOutputDir := outputDir
    fZBins := 100
    fZMin := 0
    fZMax := 2 * cm
    fEdepHist := []
    fEnergyBins := 100
    fEMin := (1 / 10 ^ 11) * GeV
    fEMax := 10 * GeV
    fNeutronSpectrum := [] }

/-- `RunAction::SetZBins`. -/
def RunAction.SetZBins (s : RunAction) (n : ℤ) : RunAction := { s with fZBins := n }

/-- `RunAction::SetZRange`. -/
def RunAction.SetZRange (s : RunAction) (zmin zmax : ℝ) : RunAction :=
  { s with fZMin := zmin, fZMax := zmax }

/-- `RunAction::SetEnergyBins`. -/
def RunAction.SetEnergyBins (s : RunAction) (n : ℤ) : RunAction := { s with fEnergyBins := n }

/-- `RunAction::SetEnergyRange`. -/
def RunAction.SetEnergyRange (s : RunAction) (emin emax : ℝ) : RunAction :=
  { s with fEMin := emin, fEMax := emax }

/-- `RunAction::BeginOfRunAction`: `fEdepHist.assign(fZBins, 0.0)` and
`fNeutronSpectrum.assign(fEnergyBins, 0.0)`.  No validation of the
configuration is performed.  (`assign` takes an unsigned count; the model
covers the defined behaviour for non-negative bin counts via `Int.toNat`.) -/
def RunAction.BeginOfRunAction (s : RunAction) : RunAction :=
  { s with
    fEdepHist := List.replicate s.fZBins.toNat 0
    fNeutronSpectrum := List.replicate s.fEnergyBins.toNat 0 }

/-- `RunAction::GetZBin`: linear binning with out-of-range sentinel `-1`. -/
def RunAction.GetZBin (s : RunAction) (z : ℝ) : ℤ :=
  if z < s.fZMin ∨ s.fZMax ≤ z then -1
  else truncToInt ((z - s.fZMin) / (s.fZMax - s.fZMin) * (s.fZBins : ℝ))

/-- `RunAction::GetEnergyBin`: logarithmic binning with out-of-range
sentinel `-1`. -/
def RunAction.GetEnergyBin (s : RunAction) (e : ℝ) : ℤ :=
  if e ≤ 0 ∨ e < s.fEMin ∨ s.fEMax ≤ e then -1
  else
    truncToInt ((Real.logb 10 e - Real.logb 10 s.fEMin) /
      (Real.logb 10 s.fEMax - Real.logb 10 s.fEMin) * (s.fEnergyBins : ℝ))

/-- `RunAction::AddEdep`: if `zBin` is in `[0, fZBins)`, add `edep` to that
entry of `fEdepHist`; otherwise do nothing. -/
def RunAction.AddEdep (s : RunAction) (zBin : ℤ) (edep : ℝ) : RunAction :=
  if 0 ≤ zBin ∧ zBin < s.fZBins then
    { s with
      fEdepHist := s.fEdepHist.set zBin.toNat (s.fEdepHist.getD zBin.toNat 0 + edep) }
  else s

/-- `RunAction::AddNeutronExit`: compute the energy bin; if it is in
`[0, fEnergyBins)`, add `1.0` to that entry of `fNeutronSpectrum`;
otherwise do nothing. -/
def RunAction.AddNeutronExit (s : RunAction) (energy : ℝ) : RunAction :=
  if 0 ≤ s.GetEnergyBin energy ∧ s.GetEnergyBin energy < s.fEnergyBins then
    { s with
      fNeutronSpectrum :=
        s.fNeutronSpectrum.set (s.GetEnergyBin energy).toNat
          (s.fNeutronSpectrum.getD (s.GetEnergyBin energy).toNat 0 + 1) }
  else s

/-- One output artifact: a header line and one `(coordinate, value)` row per
bin. -/
structure Artifact where
  header : String
  rows : List (ℝ × ℝ)

/-- What `RunAction::WriteResults` leaves behind: the artifact for each file
whose stream opened (`none` when the open failed and the block was skipped)
and the diagnostic messages emitted (the method prints none). -/
structure WriteOutcome where
  edepArtifact : Option Artifact
  specArtifact : Option Artifact
  diagnostics : List String

/-- Rows of `edep_profile.dat`: for each `i`, bin center
`fZMin + (i + 0.5) * dz` converted to cm, and `fEdepHist[i]` converted to
GeV. -/
def RunAction.edepRows (s : RunAction) : List (ℝ × ℝ) :=
  (List.range s.fZBins.toNat).map fun (i : ℕ) =>
    ((s.fZMin + ((i : ℝ) + 1 / 2) * ((s.fZMax - s.fZMin) / (s.fZBins : ℝ))) / cm,
      s.fEdepHist.getD i 0 / GeV)

/-- Rows of `neutron_spectrum.dat`: for each `i`, bin center
`10 ^ (logMin + (i + 0.5) * dLogE)` with `logMin = log10(fEMin/GeV)`, and the
count `fNeutronSpectrum[i]`. -/
def RunAction.spectrumRows (s : RunAction) : List (ℝ × ℝ) :=
  (List.range s.fEnergyBins.toNat).map fun (i : ℕ) =>
    ((10 : ℝ) ^ (Real.logb 10 (s.fEMin / GeV) + ((i : ℝ) + 1 / 2) *
        ((Real.logb 10 (s.fEMax / GeV) - Real.logb 10 (s.fEMin / GeV)) / (s.fEnergyBins : ℝ))),
      s.fNeutronSpectrum.getD i 0)

/-- `RunAction::WriteResults`: attempts to open the two output files
independently; a file whose open fails is silently skipped (its `if
(out.is_open())` block does not run and nothing is printed).  The member
only reads the histograms, so the state is returned unchanged. -/
def RunAction.WriteResults (s : RunAction) (edepOpenOk specOpenOk : Bool) :
    RunAction × WriteOutcome :=
  (s,
    { edepArtifact :=
        if edepOpenOk then some { header := "# z_cm edep_GeV", rows := s.edepRows } else none
      specArtifact :=
        if specOpenOk then
          some { header := "# energy_GeV count", rows := s.spectrumRows }
        else none
      diagnostics := [] })

/-- The part of `G4Run` that `RunAction` reads. -/
structure G4Run where
  numberOfEvent : ℤ

/-- `RunAction::EndOfRunAction`: returns immediately when the run had zero
events; otherwise the master instance writes the results.  `isMaster`
models `G4UserRunAction::IsMaster()`. -/
def RunAction.EndOfRunAction (s : RunAction) (run : G4Run) (isMaster : Bool)
    (edepOpenOk specOpenOk : Bool) : RunAction × Option WriteOutcome :=
  if run.numberOfEvent = 0 then (s, none)
  else if isMaster then
    ((s.WriteResults edepOpenOk specOpenOk).1, some (s.WriteResults edepOpenOk specOpenOk).2)
  else (s, none)

/-- The part of a `G4Step` that `SteppingAction::UserSteppingAction` reads.
`postVolumeMaterial = none` models a null post-step physical volume (the
track left the world); `some m` gives the material name of the post-step
volume. -/
structure G4Step where
  totalEnergyDeposit : ℝ
  preStepZ : ℝ
  particleName : String
  postVolumeMaterial : Option String
  kineticEnergy : ℝ

/-- `SteppingAction::UserSteppingAction`: if the step deposited energy, bin
its pre-step z and add the deposit; independently, if the track is a neutron
whose post-step volume is null or made of `G4_Galactic`, record its kinetic
energy in the exit spectrum. -/
def SteppingAction.UserSteppingAction (ra : RunAction) (step : G4Step) : RunAction :=
  let ra1 :=
    if 0 < step.totalEnergyDeposit then
      ra.AddEdep (ra.GetZBin step.preStepZ) step.totalEnergyDeposit
    else ra
  if step.particleName = "neutron" ∧
      (step.postVolumeMaterial = none ∨ step.postVolumeMaterial = some "G4_Galactic") then
    ra1.AddNeutronExit step.kineticEnergy
  else ra1

/-- Element-wise sum of two histogram vectors. -/
def vsum (a b : List ℝ) : List ℝ := List.zipWith (fun x y => x + y) a b

/-- One worker's accumulator: its deposit histogram and exit spectrum
(spec §3). -/
structure Accum where
  depositHistogram : List ℝ
  exitSpectrum : List ℝ

/-- Modelled from the spec: the combination of two worker accumulators used
by `EndRun`'s merge (spec §3 `MergedResult`, §4.4).  `RunAction.cc`'s
`EndOfRunAction` contains no explicit merge loop — per-worker combination is
delegated to the external engine's run machinery — so the element-wise sum
the spec prescribes is modelled here. -/
def mergeTwo (a b : Accum) : Accum :=
  { depositHistogram := vsum a.depositHistogram b.depositHistogram
    exitSpectrum := vsum a.exitSpectrum b.exitSpectrum }

/-- The zero accumulator with `nz` deposit bins and `ne` spectrum bins. -/
def zeroAccum (nz ne : ℕ) : Accum :=
  { depositHistogram := List.replicate nz 0
    exitSpectrum := List.replicate ne 0 }

/-- Modelled from the spec: `EndRun` merges all worker accumulators into one
run-level result (spec §4.4), starting from a zeroed accumulator of the
configured shape. -/
def EndRunMerge (nz ne : ℕ) (workers : List Accum) : Accum :=
  workers.foldl mergeTwo (zeroAccum nz ne)

/-- A sequence of `AddEdep` calls `(zBin, edep)` applied in order. -/
def applyDeposits (s : RunAction) (calls : List (ℤ × ℝ)) : RunAction :=
  calls.foldl (fun t c => t.AddEdep c.1 c.2) s

/-- Every entry of the list is non-negative. -/
def nonnegList (l : List ℝ) : Prop := ∀ x ∈ l, 0 ≤ x

/-- A small concrete configuration used by the witnesses: 4 z-bins over
`[0, 4)`, 2 log-energy bins over `[1/10, 10)` (the end-to-end example of
spec §8), with freshly zeroed histograms. -/
def testConfig : RunAction :=
  { fOutputDir := ""
    fZBins := 4
    fZMin := 0
    fZMax := 4
    fEdepHist := List.replicate 4 0
    fEnergyBins := 2
    fEMin := 1 / 10
    fEMax := 10
    fNeutronSpectrum := List.replicate 2 0 }

/-- A step event that both deposits energy and is an exiting neutron, used
by the witnesses. -/
def testStep : G4Step :=
  { totalEnergyDeposit := 1
    preStepZ := 1 / 2
    particleName := "neutron"
    postVolumeMaterial := none
    kineticEnergy := 1 }

/-- A concrete worker accumulator used by the witnesses. -/
def accA : Accum := { depositHistogram := [1, 2], exitSpectrum := [3] }

/-- A second concrete worker accumulator used by the witnesses. -/
def accB : Accum := { depositHistogram := [10, 20], exitSpectrum := [30] }

/-- A third concrete worker accumulator used by the witnesses. -/
def accC : Accum := { depositHistogram := [5, 6], exitSpectrum := [7] }

end

/-! ## Helper lemmas -/

theorem truncToInt_of_nonneg {x : ℝ} (h : 0 ≤ x) : truncToInt x = ⌊x⌋ := if_pos h

theorem ratio_scaled_bounds {m M v : ℝ} {n : ℤ} (hmM : m < M) (hn : 0 < n)
    (h1 : m ≤ v) (h2 : v < M) :
    0 ≤ (v - m) / (M - m) * (n : ℝ) ∧ (v - m) / (M - m) * (n : ℝ) < (n : ℝ) := by
  have hden : (0 : ℝ) < M - m := by linarith
  have hr0 : 0 ≤ (v - m) / (M - m) := div_nonneg (by linarith) hden.le
  have hr1 : (v - m) / (M - m) < 1 := (div_lt_one hden).2 (by linarith)
  have hnR : (0 : ℝ) < (n : ℝ) := by exact_mod_cast hn
  refine ⟨mul_nonneg hr0 hnR.le, ?_⟩
  calc (v - m) / (M - m) * (n : ℝ) < 1 * (n : ℝ) := mul_lt_mul_of_pos_right hr1 hnR
    _ = (n : ℝ) := one_mul _

theorem getD_replicate_zero (n i : ℕ) : (List.replicate n (0 : ℝ)).getD i 0 = 0 := by
  rcases lt_or_ge i n with h | h
  · rw [List.getD_eq_getElem _ _ (by simpa using h)]
    simp
  · rw [List.getD_eq_default _ _ (by simpa using h)]

theorem getD_nonneg {l : List ℝ} (h : nonnegList l) (i : ℕ) : 0 ≤ l.getD i 0 := by
  rcases lt_or_ge i l.length with hi | hi
  · rw [List.getD_eq_getElem _ _ hi]
    exact h _ (List.getElem_mem hi)
  · rw [List.getD_eq_default _ _ hi]

theorem vsum_cons_cons (x y : ℝ) (xs ys : List ℝ) :
    vsum (x :: xs) (y :: ys) = (x + y) :: vsum xs ys := rfl

theorem vsum_right_comm (z a b : List ℝ) : vsum (vsum z a) b = vsum (vsum z b) a := by
  induction z generalizing a b with
  | nil => simp [vsum]
  | cons x xs ih =>
    cases a with
    | nil => simp [vsum]
    | cons y ys =>
      cases b with
      | nil => simp [vsum]
      | cons w ws =>
        rw [vsum_cons_cons, vsum_cons_cons, vsum_cons_cons, vsum_cons_cons]
        rw [ih ys ws]
        congr 1
        ring

theorem vsum_comm (a b : List ℝ) : vsum a b = vsum b a := by
  induction a generalizing b with
  | nil => cases b <;> simp [vsum]
  | cons x xs ih =>
    cases b with
    | nil => simp [vsum]
    | cons y ys =>
      rw [vsum_cons_cons, vsum_cons_cons, ih ys]
      congr 1
      ring

theorem vsum_assoc (a b c : List ℝ) : vsum (vsum a b) c = vsum a (vsum b c) := by
  induction a generalizing b c with
  | nil => simp [vsum]
  | cons x xs ih =>
    cases b with
    | nil => simp [vsum]
    | cons y ys =>
      cases c with
      | nil => simp [vsum]
      | cons w ws =>
        rw [vsum_cons_cons, vsum_cons_cons, vsum_cons_cons, vsum_cons_cons, ih ys ws]
        congr 1
        ring

theorem vsum_length (a b : List ℝ) : (vsum a b).length = min a.length b.length :=
  List.length_zipWith _ _ _

theorem vsum_getD {a b : List ℝ} (h : a.length = b.length) (i : ℕ) :
    (vsum a b).getD i 0 = a.getD i 0 + b.getD i 0 := by
  induction a generalizing b i with
  | nil =>
    have hb : b = [] := List.eq_nil_of_length_eq_zero (by simpa using h.symm)
    subst hb
    simp [vsum]
  | cons x xs ih =>
    cases b with
    | nil => simp at h
    | cons y ys =>
      cases i with
      | zero => rw [vsum_cons_cons]; simp
      | succ j =>
        rw [vsum_cons_cons]
        simpa using ih (by simpa using h) j

theorem mergeTwo_right_comm (z a b : Accum) :
    mergeTwo (mergeTwo z a) b = mergeTwo (mergeTwo z b) a := by
  simp only [mergeTwo, Accum.mk.injEq]
  exact ⟨vsum_right_comm _ _ _, vsum_right_comm _ _ _⟩

theorem mergeTwo_comm (a b : Accum) : mergeTwo a b = mergeTwo b a := by
  simp only [mergeTwo, Accum.mk.injEq]
  exact ⟨vsum_comm _ _, vsum_comm _ _⟩

theorem mergeTwo_assoc (a b c : Accum) :
    mergeTwo (mergeTwo a b) c = mergeTwo a (mergeTwo b c) := by
  simp only [mergeTwo, Accum.mk.injEq]
  exact ⟨vsum_assoc _ _ _, vsum_assoc _ _ _⟩

theorem foldl_mergeTwo_getD (nz ne : ℕ) (ws : List Accum) :
    ∀ acc : Accum, acc.depositHistogram.length = nz → acc.exitSpectrum.length = ne →
    (∀ w ∈ ws, w.depositHistogram.length = nz ∧ w.exitSpectrum.length = ne) →
    ∀ i : ℕ,
      (ws.foldl mergeTwo acc).depositHistogram.getD i 0 =
        acc.depositHistogram.getD i 0 + (ws.map fun w => w.depositHistogram.getD i 0).sum ∧
      (ws.foldl mergeTwo acc).exitSpectrum.getD i 0 =
        acc.exitSpectrum.getD i 0 + (ws.map fun w => w.exitSpectrum.getD i 0).sum := by
  induction ws with
  | nil => intro acc _ _ _ i; simp
  | cons w ws ih =>
    intro acc hacc1 hacc2 hws i
    have hw := hws w (List.mem_cons_self _ _)
    have hlen1 : (mergeTwo acc w).depositHistogram.length = nz := by
      rw [mergeTwo, vsum_length, hacc1, hw.1, min_self]
    have hlen2 : (mergeTwo acc w).exitSpectrum.length = ne := by
      rw [mergeTwo, vsum_length, hacc2, hw.2, min_self]
    have hrest := ih (mergeTwo acc w) hlen1 hlen2
      (fun x hx => hws x (List.mem_cons_of_mem _ hx)) i
    have hm1 : (mergeTwo acc w).depositHistogram.getD i 0 =
        acc.depositHistogram.getD i 0 + w.depositHistogram.getD i 0 :=
      vsum_getD (hacc1.trans hw.1.symm) i
    have hm2 : (mergeTwo acc w).exitSpectrum.getD i 0 =
        acc.exitSpectrum.getD i 0 + w.exitSpectrum.getD i 0 :=
      vsum_getD (hacc2.trans hw.2.symm) i
    rw [List.foldl_cons]
    refine ⟨?_, ?_⟩
    · rw [hrest.1, hm1, List.map_cons, List.sum_cons]; ring
    · rw [hrest.2, hm2, List.map_cons, List.sum_cons]; ring

/-! ## Claim theorems -/

/-- C7: a run with zero processed events performs no write: `EndOfRunAction`
returns immediately, leaving the state unchanged and producing no output
artifact, as a normal (non-failing) return. -/
theorem c7_zero_event_run_no_output (s : RunAction) (isMaster edepOpenOk specOpenOk : Bool) :
    s.EndOfRunAction { numberOfEvent := 0 } isMaster edepOpenOk specOpenOk = (s, none) := by
  simp [RunAction.EndOfRunAction]

/-- C5: out-of-range bin indices are silent no-ops: `AddEdep` with a bin
outside `[0, fZBins)` and `AddNeutronExit` with an energy whose computed bin
is outside `[0, fEnergyBins)` leave the whole state (both histograms)
unchanged and raise no error; in particular `z = fZMax` exactly yields the
sentinel `-1` and its deposit contributes nothing. -/
theorem c5_out_of_range_bins_silently_dropped (s : RunAction) (zBin : ℤ) (edep e : ℝ) :
    ((zBin < 0 ∨ s.fZBins ≤ zBin) → s.AddEdep zBin edep = s) ∧
    ((s.GetEnergyBin e < 0 ∨ s.fEnergyBins ≤ s.GetEnergyBin e) → s.AddNeutronExit e = s) ∧
    s.GetZBin s.fZMax = -1 ∧
    s.AddEdep (s.GetZBin s.fZMax) edep = s := by
  have hzmax : s.GetZBin s.fZMax = -1 := by
    unfold RunAction.GetZBin
    rw [if_pos (Or.inr le_rfl)]
  refine ⟨fun h => ?_, fun h => ?_, hzmax, ?_⟩
  · unfold RunAction.AddEdep
    rw [if_neg (by omega)]
  · unfold RunAction.AddNeutronExit
    rw [if_neg (by omega)]
  · unfold RunAction.AddEdep
    rw [hzmax, if_neg (by omega)]

/-- C5 witness: concrete out-of-range calls are no-ops. -/
theorem c5_witness :
    testConfig.AddEdep (-1) 5 = testConfig ∧ testConfig.AddNeutronExit 0 = testConfig := by
  have hbin : testConfig.GetEnergyBin 0 = -1 := by
    unfold RunAction.GetEnergyBin
    rw [if_pos (Or.inl le_rfl)]
  exact ⟨(c5_out_of_range_bins_silently_dropped testConfig (-1) 5 0).1 (Or.inl (by norm_num)),
    (c5_out_of_range_bins_silently_dropped testConfig (-1) 5 0).2.1 (Or.inl (by rw [hbin]; norm_num))⟩

/-- C8 counterexample: when the output streams fail to open, `WriteResults`
emits no diagnostic whatsoever — the failure is not reported, contrary to
the claim — while producing no artifact. -/
theorem c8_counterexample_failure_not_reported :
    (testConfig.WriteResults false false).2.diagnostics = [] ∧
    (testConfig.WriteResults false false).2.edepArtifact = none ∧
    (testConfig.WriteResults false false).2.specArtifact = none := by
  refine ⟨rfl, ?_, ?_⟩ <;> simp [RunAction.WriteResults]

/-- C8 (amended): a failed open is silently skipped — nothing is logged or
surfaced — and is non-fatal: the two artifacts are attempted independently,
exactly the files whose streams opened are produced, there is no retry or
rollback, and the in-memory histograms are returned unchanged and valid. -/
theorem c8_write_failure_silent_nonfatal (s : RunAction) (edepOpenOk specOpenOk : Bool) :
    (s.WriteResults edepOpenOk specOpenOk).1 = s ∧
    (s.WriteResults edepOpenOk specOpenOk).2.diagnostics = [] ∧
    (s.WriteResults edepOpenOk specOpenOk).2.edepArtifact.isSome = edepOpenOk ∧
    (s.WriteResults edepOpenOk specOpenOk).2.specArtifact.isSome = specOpenOk := by
  cases edepOpenOk <;> cases specOpenOk <;> simp [RunAction.WriteResults]

/-- C2 counterexample: with `fZBins = 0` — violating the invariant `Nz > 0` —
starting the run does not fail: `BeginOfRunAction` returns normally with an
empty deposit histogram, and a subsequent 5-event master run still proceeds
to produce output artifacts. -/
theorem c2_counterexample_invalid_config_run_proceeds :
    ((testConfig.SetZBins 0).BeginOfRunAction).fEdepHist = [] ∧
    (((testConfig.SetZBins 0).BeginOfRunAction).EndOfRunAction { numberOfEvent := 5 }
        true true true).2 ≠ none := by
  constructor
  · simp [testConfig, RunAction.SetZBins, RunAction.BeginOfRunAction]
  · simp [RunAction.EndOfRunAction]

/-- C2 (amended): `BeginOfRunAction` performs no configuration validation:
for every configuration — including every one violating the histogram-shape
invariant — it returns normally with the two histograms reset to
`fZBins.toNat` and `fEnergyBins.toNat` zeros, and a subsequent master run
with a nonzero event count proceeds to write output with that shape. -/
theorem c2_no_validation_at_run_start (s : RunAction) (n : ℤ) (edepOpenOk specOpenOk : Bool) :
    s.BeginOfRunAction.fEdepHist = List.replicate s.fZBins.toNat 0 ∧
    s.BeginOfRunAction.fNeutronSpectrum = List.replicate s.fEnergyBins.toNat 0 ∧
    (n ≠ 0 →
      (s.BeginOfRunAction.EndOfRunAction { numberOfEvent := n } true edepOpenOk specOpenOk).2 =
        some (s.BeginOfRunAction.WriteResults edepOpenOk specOpenOk).2) := by
  refine ⟨rfl, rfl, fun hn => ?_⟩
  simp [RunAction.EndOfRunAction, hn]

/-- C2 witness: the amended statement applied to a shape-invariant-violating
configuration with a 5-event run. -/
theorem c2_no_validation_witness :
    ((testConfig.SetZBins 0).BeginOfRunAction.EndOfRunAction { numberOfEvent := 5 }
        true true true).2 =
      some ((testConfig.SetZBins 0).BeginOfRunAction.WriteResults true true).2 :=
  (c2_no_validation_at_run_start (testConfig.SetZBins 0) 5 true true).2.2 (by norm_num)

/-- C10: `AddEdep` adds its energy argument to the selected bin with no
sign check; the non-negativity of `fEdepHist` is preserved by every call
sequence whose energies are all non-negative, and a single call with a
negative energy on a zeroed histogram drives an entry below zero. -/
theorem c10_deposit_sign_invariant :
    (∀ (s : RunAction) (calls : List (ℤ × ℝ)), nonnegList s.fEdepHist →
        (∀ c ∈ calls, 0 ≤ c.2) → nonnegList (applyDeposits s calls).fEdepHist) ∧
    (∀ (s : RunAction) (zBin : ℤ) (edep : ℝ), 0 ≤ zBin → zBin < s.fZBins →
        (s.AddEdep zBin edep).fEdepHist =
          s.fEdepHist.set zBin.toNat (s.fEdepHist.getD zBin.toNat 0 + edep)) ∧
    (∀ e : ℝ, e < 0 →
        ∃ x ∈ (((RunAction.construct "").BeginOfRunAction).AddEdep 0 e).fEdepHist, x < 0) := by
  have hstep : ∀ (s : RunAction) (zBin : ℤ) (edep : ℝ), nonnegList s.fEdepHist → 0 ≤ edep →
      nonnegList (s.AddEdep zBin edep).fEdepHist := by
    intro s zBin edep hs he
    unfold RunAction.AddEdep
    split
    · intro x hx
      rcases List.mem_or_eq_of_mem_set hx with h | h
      · exact hs x h
      · subst h
        exact add_nonneg (getD_nonneg hs _) he
    · exact hs
  refine ⟨?_, ?_, ?_⟩
  · intro s calls
    induction calls generalizing s with
    | nil => intro hs _; simpa [applyDeposits] using hs
    | cons c cs ih =>
      intro hs hc
      have h1 : nonnegList (s.AddEdep c.1 c.2).fEdepHist :=
        hstep s c.1 c.2 hs (hc c (List.mem_cons_self _ _))
      have h2 : ∀ d ∈ cs, 0 ≤ d.2 := fun d hd => hc d (List.mem_cons_of_mem _ hd)
      simpa [applyDeposits] using ih (s.AddEdep c.1 c.2) h1 h2
  · intro s zBin edep h1 h2
    unfold RunAction.AddEdep
    rw [if_pos ⟨h1, h2⟩]
  · intro e he
    refine ⟨0 + e, ?_, by linarith⟩
    have hset : (((RunAction.construct "").BeginOfRunAction).AddEdep 0 e).fEdepHist =
        (List.replicate 100 (0 : ℝ)).set 0
          ((List.replicate 100 (0 : ℝ)).getD 0 0 + e) := by
      unfold RunAction.AddEdep
      rw [if_pos (by constructor <;> norm_num [RunAction.construct, RunAction.BeginOfRunAction])]
      simp [RunAction.construct, RunAction.BeginOfRunAction]
    rw [hset, getD_replicate_zero]
    have : (List.replicate 100 (0 : ℝ)).set 0 (0 + e) = (0 + e) :: List.replicate 99 0 := by
      rw [show (100 : ℕ) = 99 + 1 by norm_num, List.replicate_succ, List.set_cons_zero]
    rw [this]
    exact List.mem_cons_self _ _

/-- C10 witness: a single negative deposit on a freshly zeroed histogram
produces a negative entry. -/
theorem c10_witness :
    ∃ x ∈ (((RunAction.construct "").BeginOfRunAction).AddEdep 0 (-1)).fEdepHist, x < 0 :=
  c10_deposit_sign_invariant.2.2 (-1) (by norm_num)

/-- C3: the linear bin mapping: for `fZMin ≤ z < fZMax` (with `fZBins > 0` and
`fZMin < fZMax`) `GetZBin` returns `⌊(z - fZMin) / (fZMax - fZMin) * fZBins⌋`,
an index in `[0, fZBins)`; for `z < fZMin` or `z ≥ fZMax` — in particular for
`z = fZMax` exactly — it returns the out-of-range sentinel `-1`. -/
theorem c3_linear_bin_floor_and_range (s : RunAction) (z : ℝ)
    (hn : 0 < s.fZBins) (hz : s.fZMin < s.fZMax) :
    ((s.fZMin ≤ z ∧ z < s.fZMax) →
      s.GetZBin z = ⌊(z - s.fZMin) / (s.fZMax - s.fZMin) * (s.fZBins : ℝ)⌋ ∧
      0 ≤ s.GetZBin z ∧ s.GetZBin z < s.fZBins) ∧
    ((z < s.fZMin ∨ s.fZMax ≤ z) → s.GetZBin z = -1) := by
  constructor
  · rintro ⟨h1, h2⟩
    obtain ⟨hlo, hhi⟩ := ratio_scaled_bounds hz hn h1 h2
    have heq : s.GetZBin z = ⌊(z - s.fZMin) / (s.fZMax - s.fZMin) * (s.fZBins : ℝ)⌋ := by
      unfold RunAction.GetZBin
      rw [if_neg (by push_neg; exact ⟨h1, h2⟩), truncToInt_of_nonneg hlo]
    refine ⟨heq, ?_, ?_⟩
    · rw [heq]
      exact Int.floor_nonneg.2 hlo
    · rw [heq]
      exact Int.floor_lt.2 hhi
  · intro h
    unfold RunAction.GetZBin
    rw [if_pos h]

/-- C3 witness: `z = 3/2` in the test configuration. -/
theorem c3_witness :
    testConfig.GetZBin (3 / 2) =
      ⌊((3 : ℝ) / 2 - testConfig.fZMin) / (testConfig.fZMax - testConfig.fZMin) *
        (testConfig.fZBins : ℝ)⌋ ∧
    0 ≤ testConfig.GetZBin (3 / 2) ∧ testConfig.GetZBin (3 / 2) < testConfig.fZBins :=
  (c3_linear_bin_floor_and_range testConfig (3 / 2) (by norm_num [testConfig])
    (by norm_num [testConfig])).1 ⟨by norm_num [testConfig], by norm_num [testConfig]⟩

/-- C4: the logarithmic bin mapping returns the sentinel `-1` exactly when
`e ≤ 0`, `e < fEMin` or `e ≥ fEMax`; otherwise (with `0 < fEMin < fEMax` and
`fEnergyBins > 0`) it returns
`⌊(log10 e - log10 fEMin) / (log10 fEMax - log10 fEMin) * fEnergyBins⌋`, an
index in `[0, fEnergyBins)`. -/
theorem c4_log_bin_sentinel_and_range (s : RunAction) (e : ℝ)
    (h0 : 0 < s.fEMin) (hme : s.fEMin < s.fEMax) (hn : 0 < s.fEnergyBins) :
    (s.GetEnergyBin e = -1 ↔ (e ≤ 0 ∨ e < s.fEMin ∨ s.fEMax ≤ e)) ∧
    ((s.fEMin ≤ e ∧ e < s.fEMax) →
      s.GetEnergyBin e =
        ⌊(Real.logb 10 e - Real.logb 10 s.fEMin) /
          (Real.logb 10 s.fEMax - Real.logb 10 s.fEMin) * (s.fEnergyBins : ℝ)⌋ ∧
      0 ≤ s.GetEnergyBin e ∧ s.GetEnergyBin e < s.fEnergyBins) := by
  have hb : (1 : ℝ) < 10 := by norm_num
  have hin : (s.fEMin ≤ e ∧ e < s.fEMax) →
      s.GetEnergyBin e =
        ⌊(Real.logb 10 e - Real.logb 10 s.fEMin) /
          (Real.logb 10 s.fEMax - Real.logb 10 s.fEMin) * (s.fEnergyBins : ℝ)⌋ ∧
      0 ≤ s.GetEnergyBin e ∧ s.GetEnergyBin e < s.fEnergyBins := by
    rintro ⟨h1, h2⟩
    have he0 : 0 < e := lt_of_lt_of_le h0 h1
    have hl1 : Real.logb 10 s.fEMin ≤ Real.logb 10 e := Real.logb_le_logb_of_le hb h0 h1
    have hl2 : Real.logb 10 e < Real.logb 10 s.fEMax := Real.logb_lt_logb hb he0 h2
    have hlm : Real.logb 10 s.fEMin < Real.logb 10 s.fEMax := Real.logb_lt_logb hb h0 hme
    obtain ⟨hlo, hhi⟩ := ratio_scaled_bounds hlm hn hl1 hl2
    have heq : s.GetEnergyBin e =
        ⌊(Real.logb 10 e - Real.logb 10 s.fEMin) /
          (Real.logb 10 s.fEMax - Real.logb 10 s.fEMin) * (s.fEnergyBins : ℝ)⌋ := by
      unfold RunAction.GetEnergyBin
      rw [if_neg (by push_neg; exact ⟨he0, h1, h2⟩), truncToInt_of_nonneg hlo]
    refine ⟨heq, ?_, ?_⟩
    · rw [heq]
      exact Int.floor_nonneg.2 hlo
    · rw [heq]
      exact Int.floor_lt.2 hhi
  refine ⟨⟨?_, ?_⟩, hin⟩
  · intro hsent
    by_contra hc
    push_neg at hc
    obtain ⟨hp, h1, h2⟩ := hc
    have hpos := (hin ⟨h1, h2⟩).2.1
    rw [hsent] at hpos
    omega
  · intro h
    unfold RunAction.GetEnergyBin
    rw [if_pos h]

/-- C4 witness: `e = 1` in the test configuration (`fEMin = 1/10`,
`fEMax = 10`, two bins). -/
theorem c4_witness :
    testConfig.GetEnergyBin 1 =
      ⌊(Real.logb 10 1 - Real.logb 10 testConfig.fEMin) /
        (Real.logb 10 testConfig.fEMax - Real.logb 10 testConfig.fEMin) *
        (testConfig.fEnergyBins : ℝ)⌋ ∧
    0 ≤ testConfig.GetEnergyBin 1 ∧ testConfig.GetEnergyBin 1 < testConfig.fEnergyBins :=
  (c4_log_bin_sentinel_and_range testConfig 1 (by norm_num [testConfig])
    (by norm_num [testConfig]) (by norm_num [testConfig])).2
    ⟨by norm_num [testConfig], by norm_num [testConfig]⟩

theorem floor_add_half (i : ℕ) : ⌊(i : ℝ) + 1 / 2⌋ = (i : ℤ) := by
  rw [Int.floor_eq_iff]
  constructor
  · push_cast
    linarith
  · push_cast
    linarith

/-- C9: binning a bin's own center maps back to the same index: for every
valid configuration and in-range index `i`, the linear center
`fZMin + (i + 0.5) * dz` is mapped by `GetZBin` to `i`, and the logarithmic
center `10 ^ (logMin + (i + 0.5) * dLog)` is mapped by `GetEnergyBin` to `i`
— the center formulas being the ones the writer uses for output. -/
theorem c9_bin_center_round_trip (s : RunAction) (i : ℕ) :
    (0 < s.fZBins → s.fZMin < s.fZMax → (i : ℤ) < s.fZBins →
      s.GetZBin (s.fZMin + ((i : ℝ) + 1 / 2) * ((s.fZMax - s.fZMin) / (s.fZBins : ℝ))) = i) ∧
    (0 < s.fEMin → s.fEMin < s.fEMax → 0 < s.fEnergyBins → (i : ℤ) < s.fEnergyBins →
      s.GetEnergyBin ((10 : ℝ) ^ (Real.logb 10 s.fEMin + ((i : ℝ) + 1 / 2) *
        ((Real.logb 10 s.fEMax - Real.logb 10 s.fEMin) / (s.fEnergyBins : ℝ)))) = i) := by
  constructor
  · intro hn hz hi
    have hnR : (0 : ℝ) < (s.fZBins : ℝ) := by exact_mod_cast hn
    have hiR : (i : ℝ) + 1 / 2 < (s.fZBins : ℝ) := by
      have h1 : ((i : ℝ) + 1) ≤ (s.fZBins : ℝ) := by exact_mod_cast Int.add_one_le_iff.2 hi
      linarith
    have hdz : (0 : ℝ) < (s.fZMax - s.fZMin) / (s.fZBins : ℝ) := div_pos (by linarith) hnR
    have hnn : (0 : ℝ) ≤ (i : ℝ) + 1 / 2 := by positivity
    have hge : s.fZMin ≤ s.fZMin + ((i : ℝ) + 1 / 2) * ((s.fZMax - s.fZMin) / (s.fZBins : ℝ)) := by
      nlinarith
    have hub : ((i : ℝ) + 1 / 2) * ((s.fZMax - s.fZMin) / (s.fZBins : ℝ)) <
        s.fZMax - s.fZMin := by
      have h2 := mul_lt_mul_of_pos_right hiR hdz
      have h3 : (s.fZBins : ℝ) * ((s.fZMax - s.fZMin) / (s.fZBins : ℝ)) =
          s.fZMax - s.fZMin := by
        field_simp
      linarith
    have hlt : s.fZMin + ((i : ℝ) + 1 / 2) * ((s.fZMax - s.fZMin) / (s.fZBins : ℝ)) <
        s.fZMax := by linarith
    have key : (s.fZMin + ((i : ℝ) + 1 / 2) * ((s.fZMax - s.fZMin) / (s.fZBins : ℝ)) -
        s.fZMin) / (s.fZMax - s.fZMin) * (s.fZBins : ℝ) = (i : ℝ) + 1 / 2 := by
      have hMm : s.fZMax - s.fZMin ≠ 0 := ne_of_gt (by linarith)
      have hnne : (s.fZBins : ℝ) ≠ 0 := ne_of_gt hnR
      field_simp
      ring
    unfold RunAction.GetZBin
    rw [if_neg (by push_neg; exact ⟨hge, hlt⟩), key, truncToInt_of_nonneg hnn, floor_add_half]
  · intro h0 hme hn hi
    have hb : (1 : ℝ) < 10 := by norm_num
    have hb0 : (0 : ℝ) < 10 := by norm_num
    have hb1 : (10 : ℝ) ≠ 1 := by norm_num
    have hlm : Real.logb 10 s.fEMin < Real.logb 10 s.fEMax := Real.logb_lt_logb hb h0 hme
    have hnR : (0 : ℝ) < (s.fEnergyBins : ℝ) := by exact_mod_cast hn
    have hiR : (i : ℝ) + 1 / 2 < (s.fEnergyBins : ℝ) := by
      have h1 : ((i : ℝ) + 1) ≤ (s.fEnergyBins : ℝ) := by exact_mod_cast Int.add_one_le_iff.2 hi
      linarith
    have hdL : (0 : ℝ) <
        (Real.logb 10 s.fEMax - Real.logb 10 s.fEMin) / (s.fEnergyBins : ℝ) :=
      div_pos (by linarith) hnR
    have hnn : (0 : ℝ) ≤ (i : ℝ) + 1 / 2 := by positivity
    have hL1 : Real.logb 10 s.fEMin ≤ Real.logb 10 s.fEMin + ((i : ℝ) + 1 / 2) *
        ((Real.logb 10 s.fEMax - Real.logb 10 s.fEMin) / (s.fEnergyBins : ℝ)) := by
      nlinarith
    have hubL : ((i : ℝ) + 1 / 2) *
        ((Real.logb 10 s.fEMax - Real.logb 10 s.fEMin) / (s.fEnergyBins : ℝ)) <
        Real.logb 10 s.fEMax - Real.logb 10 s.fEMin := by
      have h2 := mul_lt_mul_of_pos_right hiR hdL
      have h3 : (s.fEnergyBins : ℝ) *
          ((Real.logb 10 s.fEMax - Real.logb 10 s.fEMin) / (s.fEnergyBins : ℝ)) =
          Real.logb 10 s.fEMax - Real.logb 10 s.fEMin := by
        field_simp
      linarith
    have hL2 : Real.logb 10 s.fEMin + ((i : ℝ) + 1 / 2) *
        ((Real.logb 10 s.fEMax - Real.logb 10 s.fEMin) / (s.fEnergyBins : ℝ)) <
        Real.logb 10 s.fEMax := by linarith
    have hc0 : (0 : ℝ) < (10 : ℝ) ^ (Real.logb 10 s.fEMin + ((i : ℝ) + 1 / 2) *
        ((Real.logb 10 s.fEMax - Real.logb 10 s.fEMin) / (s.fEnergyBins : ℝ))) :=
      Real.rpow_pos_of_pos hb0 _
    have hcmin : s.fEMin ≤ (10 : ℝ) ^ (Real.logb 10 s.fEMin + ((i : ℝ) + 1 / 2) *
        ((Real.logb 10 s.fEMax - Real.logb 10 s.fEMin) / (s.fEnergyBins : ℝ))) := by
      have h4 := (Real.rpow_le_rpow_left_iff hb).2 hL1
      rwa [Real.rpow_logb hb0 hb1 h0] at h4
    have hcmax : (10 : ℝ) ^ (Real.logb 10 s.fEMin + ((i : ℝ) + 1 / 2) *
        ((Real.logb 10 s.fEMax - Real.logb 10 s.fEMin) / (s.fEnergyBins : ℝ))) <
        s.fEMax := by
      have h5 := (Real.rpow_lt_rpow_left_iff hb).2 hL2
      rwa [Real.rpow_logb hb0 hb1 (h0.trans hme)] at h5
    have hlogc : Real.logb 10 ((10 : ℝ) ^ (Real.logb 10 s.fEMin + ((i : ℝ) + 1 / 2) *
        ((Real.logb 10 s.fEMax - Real.logb 10 s.fEMin) / (s.fEnergyBins : ℝ)))) =
        Real.logb 10 s.fEMin + ((i : ℝ) + 1 / 2) *
        ((Real.logb 10 s.fEMax - Real.logb 10 s.fEMin) / (s.fEnergyBins : ℝ)) :=
      Real.logb_rpow hb0 hb1
    have key : (Real.logb 10 s.fEMin + ((i : ℝ) + 1 / 2) *
        ((Real.logb 10 s.fEMax - Real.logb 10 s.fEMin) / (s.fEnergyBins : ℝ)) -
        Real.logb 10 s.fEMin) /
        (Real.logb 10 s.fEMax - Real.logb 10 s.fEMin) * (s.fEnergyBins : ℝ) =
        (i : ℝ) + 1 / 2 := by
      have hMm : Real.logb 10 s.fEMax - Real.logb 10 s.fEMin ≠ 0 := ne_of_gt (by linarith)
      have hnne : (s.fEnergyBins : ℝ) ≠ 0 := ne_of_gt hnR
      field_simp
      ring
    unfold RunAction.GetEnergyBin
    rw [if_neg (by push_neg; exact ⟨hc0, hcmin, hcmax⟩), hlogc, key,
      truncToInt_of_nonneg hnn, floor_add_half]

/-- C9 witness: bin 1 of the test configuration, for both mappings. -/
theorem c9_witness :
    testConfig.GetZBin (testConfig.fZMin + ((1 : ℕ) + 1 / 2 : ℝ) *
      ((testConfig.fZMax - testConfig.fZMin) / (testConfig.fZBins : ℝ))) = (1 : ℕ) ∧
    testConfig.GetEnergyBin ((10 : ℝ) ^ (Real.logb 10 testConfig.fEMin +
      ((1 : ℕ) + 1 / 2 : ℝ) * ((Real.logb 10 testConfig.fEMax -
        Real.logb 10 testConfig.fEMin) / (testConfig.fEnergyBins : ℝ)))) = (1 : ℕ) :=
  ⟨(c9_bin_center_round_trip testConfig 1).1 (by norm_num [testConfig])
      (by norm_num [testConfig]) (by norm_num [testConfig]),
    (c9_bin_center_round_trip testConfig 1).2 (by norm_num [testConfig])
      (by norm_num [testConfig]) (by norm_num [testConfig]) (by norm_num [testConfig])⟩

/-- C6: the deposit check (`edep > 0`) and the neutron-exit check (neutron
and post-step volume null or of `G4_Galactic`) are evaluated independently:
each combination of the two conditions yields exactly the corresponding
updates, and for an event satisfying both, the observer performs both
`AddEdep` (with the linear z bin) and `AddNeutronExit` (which applies the
logarithmic exit-energy bin). -/
theorem c6_deposit_and_exit_checks_independent (ra : RunAction) (step : G4Step) :
    (0 < step.totalEnergyDeposit →
      (step.particleName = "neutron" ∧
        (step.postVolumeMaterial = none ∨ step.postVolumeMaterial = some "G4_Galactic")) →
      SteppingAction.UserSteppingAction ra step =
        (ra.AddEdep (ra.GetZBin step.preStepZ) step.totalEnergyDeposit).AddNeutronExit
          step.kineticEnergy) ∧
    (0 < step.totalEnergyDeposit →
      ¬(step.particleName = "neutron" ∧
        (step.postVolumeMaterial = none ∨ step.postVolumeMaterial = some "G4_Galactic")) →
      SteppingAction.UserSteppingAction ra step =
        ra.AddEdep (ra.GetZBin step.preStepZ) step.totalEnergyDeposit) ∧
    (¬0 < step.totalEnergyDeposit →
      (step.particleName = "neutron" ∧
        (step.postVolumeMaterial = none ∨ step.postVolumeMaterial = some "G4_Galactic")) →
      SteppingAction.UserSteppingAction ra step = ra.AddNeutronExit step.kineticEnergy) ∧
    (¬0 < step.totalEnergyDeposit →
      ¬(step.particleName = "neutron" ∧
        (step.postVolumeMaterial = none ∨ step.postVolumeMaterial = some "G4_Galactic")) →
      SteppingAction.UserSteppingAction ra step = ra) := by
  refine ⟨fun h1 h2 => ?_, fun h1 h2 => ?_, fun h1 h2 => ?_, fun h1 h2 => ?_⟩ <;>
    simp [SteppingAction.UserSteppingAction, h1, h2]

/-- C6 witness: a concrete exiting neutron that also deposits energy is
recorded through both accumulation calls. -/
theorem c6_witness :
    SteppingAction.UserSteppingAction testConfig testStep =
      (testConfig.AddEdep (testConfig.GetZBin testStep.preStepZ)
        testStep.totalEnergyDeposit).AddNeutronExit testStep.kineticEnergy :=
  (c6_deposit_and_exit_checks_independent testConfig testStep).1
    (by norm_num [testStep]) ⟨rfl, Or.inl rfl⟩

/-- C1: the merged run-level result equals the element-wise sum of every
per-worker `depositHistogram` and `exitSpectrum`, and it is independent of
the order and grouping in which worker accumulators are combined: it is
invariant under permutation of the worker list, the two-accumulator merge is
commutative and associative, and merging `[A, B]` yields the same totals as
merging `[B, A]`. -/
theorem c1_merge_elementwise_sum_order_independent
    (nz ne : ℕ) (ws ws2 : List Accum) (A B C : Accum)
    (hws : ∀ w ∈ ws, w.depositHistogram.length = nz ∧ w.exitSpectrum.length = ne) :
    (∀ i : ℕ,
      (EndRunMerge nz ne ws).depositHistogram.getD i 0 =
        (ws.map fun w => w.depositHistogram.getD i 0).sum ∧
      (EndRunMerge nz ne ws).exitSpectrum.getD i 0 =
        (ws.map fun w => w.exitSpectrum.getD i 0).sum) ∧
    (ws.Perm ws2 → EndRunMerge nz ne ws = EndRunMerge nz ne ws2) ∧
    mergeTwo A B = mergeTwo B A ∧
    mergeTwo (mergeTwo A B) C = mergeTwo A (mergeTwo B C) ∧
    EndRunMerge nz ne [A, B] = EndRunMerge nz ne [B, A] := by
  refine ⟨?_, ?_, mergeTwo_comm A B, mergeTwo_assoc A B C, ?_⟩
  · intro i
    have hz1 : (zeroAccum nz ne).depositHistogram.length = nz := by
      simp [zeroAccum]
    have hz2 : (zeroAccum nz ne).exitSpectrum.length = ne := by
      simp [zeroAccum]
    have h := foldl_mergeTwo_getD nz ne ws (zeroAccum nz ne) hz1 hz2 hws i
    have hzd : (zeroAccum nz ne).depositHistogram.getD i 0 = 0 := getD_replicate_zero nz i
    have hze : (zeroAccum nz ne).exitSpectrum.getD i 0 = 0 := getD_replicate_zero ne i
    unfold EndRunMerge
    rw [h.1, h.2, hzd, hze, zero_add, zero_add]
    exact ⟨rfl, rfl⟩
  · intro hp
    unfold EndRunMerge
    exact hp.foldl_eq' (fun x _ y _ z => mergeTwo_right_comm z x y) _
  · show mergeTwo (mergeTwo (zeroAccum nz ne) A) B = mergeTwo (mergeTwo (zeroAccum nz ne) B) A
    exact mergeTwo_right_comm _ A B

/-- C1 witness: two concrete workers, merged in both orders. -/
theorem c1_witness :
    ((EndRunMerge 2 1 [accA, accB]).depositHistogram.getD 0 0 =
      ([accA, accB].map fun w => w.depositHistogram.getD 0 0).sum) ∧
    EndRunMerge 2 1 [accA, accB] = EndRunMerge 2 1 [accB, accA] := by
  have hshape : ∀ w ∈ [accA, accB],
      w.depositHistogram.length = 2 ∧ w.exitSpectrum.length = 1 := by
    simp [accA, accB]
  exact ⟨((c1_merge_elementwise_sum_order_independent 2 1 [accA, accB] [accB, accA]
      accA accB accC hshape).1 0).1,
    (c1_merge_elementwise_sum_order_independent 2 1 [accA, accB] [accB, accA]
      accA accB accC hshape).2.2.2.2⟩

end NeutronStudy
